import Mathlib

/-!
Verification of the credential-lifecycle core of fortnox-node-oauth-kit.

The definitions below are a shallow embedding of the TypeScript sources:

* `src/src/services/AuthorizationService.ts` — `TokenManager` (expiry
  arithmetic, `getValidTokens`, the single-flight refresh queue) and
  `AuthorizationService.validateState`;
* `src/src/stores/TokenEncryption.ts` — `TokenEncryption.encrypt/decrypt`
  and the PKCE helpers `createCodeVerifier`, `createCodeChallenge`,
  `verifyCodeChallenge`;
* `src/src/stores/PostgresStore.ts` — `saveTokens` / `updateTokens`;
* the in-memory state storage (`InMemoryStateStorage`).

JavaScript strings handled at the byte level (PKCE, encryption) are
modelled as lists of Unicode code points (`List Nat`); `utf8Bytes` is the
UTF-8 encoding `Buffer.from(s)` / `cipher.update(s, 'utf8')` applies, and
`utf8DecodeLossy` the inverse decoding `toString('utf8')` applies.
Times are integers (milliseconds, `Date.now()`).  External collaborators
(the AES-256-GCM core of Node's `crypto`, SHA-256, `JSON.parse`) are
parameters of the definitions that call them, with their structural
behaviour (CTR keystream XOR, deterministic tag, parse outcome) made
explicit.
-/

set_option maxRecDepth 4096

namespace FortnoxKit

/-! ## Token data model (src/src/types, `FortnoxTokens`) -/

/-- The `FortnoxTokens` record of `src/src/types`.  `expiry_date` is the
optional absolute expiry instant in milliseconds (`Date.now() +
expires_in * 1000` at issuance). -/
structure FortnoxTokens where
  access_token : String
  refresh_token : String
  expires_in : Int
  scope : String
  token_type : String
  expiry_date : Option Int
deriving DecidableEq, Repr

/-- The default expiry safety buffer of `TokenManager.isTokenExpired`:
`5 * 60 * 1000` milliseconds. -/
def defaultBufferMs : Int := 5 * 60 * 1000

/-- `TokenManager.isTokenExpired` (AuthorizationService.ts lines 195-201).
`!tokens.expiry_date` is the JavaScript falsy test: it holds for a missing
`expiry_date` and also for the number `0`; otherwise the check is
`tokens.expiry_date - Date.now() < bufferMs`. -/
def isTokenExpired (tokens : FortnoxTokens) (now bufferMs : Int) : Bool :=
  match tokens.expiry_date with
  | none => true
  | some e => if e = 0 then true else decide (e - now < bufferMs)

/-- Outcome of a `TokenManager.getValidTokens` call: throw
`'No tokens found for user'`, delegate to `refreshTokens`, or return the
stored credential unchanged. -/
inductive GetValidOutcome where
  | notFound
  | refresh
  | valid (tokens : FortnoxTokens)
deriving DecidableEq, Repr

/-- `TokenManager.getValidTokens` (AuthorizationService.ts lines 280-293)
as a function of the stored credential and the current time. -/
def getValidTokens (stored : Option FortnoxTokens) (now : Int) : GetValidOutcome :=
  match stored with
  | none => .notFound
  | some t => if isTokenExpired t now defaultBufferMs then .refresh else .valid t

/-! ## Single-flight refresh queue (`TokenManager.refreshTokens`)

`refreshQueue : Map<string, Array<callback>>` holds, per user id, the
callbacks of the callers queued behind an in-flight refresh;
`isRefreshing(userId)` is `refreshQueue.has(userId)` and
`setRefreshing(userId, true)` is `refreshQueue.set(userId, [])`.  The
per-user state is therefore `Option (List Nat)`: `none` when idle,
`some waiters` while a refresh is in flight.  The check-and-set at the top
of `refreshTokens` contains no `await`, so on the Node event loop it is a
single atomic step; `enterRefresh` models that step for one caller. -/

/-- Per-user refresh coordination state: the entry of `refreshQueue` for
the user (`none` = no entry = idle). -/
structure RefreshState where
  queue : Option (List Nat)
deriving DecidableEq, Repr

/-- Idle: `refreshQueue` has no entry for the user. -/
def initialRefreshState : RefreshState := ⟨none⟩

/-- One caller entering `refreshTokens` (lines 208-219): if a refresh is
in flight the caller is appended to the queue (`addToRefreshQueue`) and
starts no exchange; otherwise it creates the queue entry
(`setRefreshing(userId, true)`) and becomes the leader that will run the
one upstream exchange.  The returned flag records whether this caller
starts an exchange. -/
def enterRefresh (s : RefreshState) (c : Nat) : RefreshState × Bool :=
  match s.queue with
  | some q => (⟨some (q ++ [c])⟩, false)
  | none => (⟨some []⟩, true)

/-- A sequence of callers entering `refreshTokens` one after another
(each entry step is atomic on the event loop), counting the upstream
exchanges started. -/
def runEnters : RefreshState → List Nat → RefreshState × Nat
  | s, [] => (s, 0)
  | s, c :: cs =>
    let e := enterRefresh s c
    let r := runEnters e.1 cs
    (r.1, (if e.2 then 1 else 0) + r.2)

/-- How a caller's promise ends up: settled with tokens, settled with the
thrown refresh error, or never settled at all. -/
inductive WaiterOutcome where
  | settled (t : FortnoxTokens)
  | failed
  | pending
deriving DecidableEq, Repr

/-- `TokenManager.processRefreshQueue` (lines 344-359) applied to the
queued callbacks: on success (`tokens` non-null) every queued callback is
invoked with the new tokens, settling that waiter's promise; on failure
(`tokens === null`) the `forEach` body does nothing for any callback — the
code's comment says "The promise will be rejected elsewhere", but no code
rejects it, so the queued waiter's promise stays pending. -/
def processRefreshQueue (queue : List Nat) (result : Option FortnoxTokens) :
    List (Nat × WaiterOutcome) :=
  queue.map fun c =>
    (c, match result with
        | some t => WaiterOutcome.settled t
        | none => WaiterOutcome.pending)

/-- The direct caller that ran the exchange: it returns `newTokens` on
success and has the error thrown at it (its promise rejects) on failure. -/
def leaderOutcome (result : Option FortnoxTokens) : WaiterOutcome :=
  match result with
  | some t => .settled t
  | none => .failed

/-- A complete refresh episode for one user: the callers enter
`refreshTokens` in order starting from the idle state (all of them before
the in-flight exchange completes), then the one in-flight exchange
completes with `result` (`some t` = the upstream exchange succeeded with
`newTokens = t`, `none` = it failed).  Returns each caller's promise
outcome and the number of upstream exchanges started. -/
def refreshEpisode (callers : List Nat) (result : Option FortnoxTokens) :
    List (Nat × WaiterOutcome) × Nat :=
  match callers with
  | [] => ([], 0)
  | c :: cs =>
    let r := runEnters initialRefreshState (c :: cs)
    ((c, leaderOutcome result) :: processRefreshQueue (r.1.queue.getD []) result, r.2)

/-- While a refresh is in flight, every further entering caller is only
appended to the queue and starts no exchange. -/
theorem runEnters_inflight (cs : List Nat) :
    ∀ q, runEnters ⟨some q⟩ cs = (⟨some (q ++ cs)⟩, 0) := by
  induction cs with
  | nil => intro q; simp [runEnters]
  | cons c cs ih =>
    intro q
    simp [runEnters, enterRefresh, ih (q ++ [c])]

/-- A concrete credential used to evaluate the theorems below. -/
def sampleTokens : FortnoxTokens :=
  { access_token := "at"
    refresh_token := "rt"
    expires_in := 3600
    scope := "companyinformation"
    token_type := "Bearer"
    expiry_date := some 1000 }

/-- Claim C1 (code_bug evidence): in a refresh episode where the upstream
exchange fails, the direct caller (caller `0`) has the error thrown at it,
but the queued waiter (caller `1`) is left pending forever:
`processRefreshQueue(userId, null)` invokes none of the queued callbacks,
so the queued waiter's promise never settles — it neither observes the
failure nor receives any credential, contradicting the claim that every
queued waiter receives the failure of the in-flight refresh. -/
theorem refresh_failure_leaves_queued_waiter_pending :
    refreshEpisode [0, 1] none =
      ([(0, WaiterOutcome.failed), (1, WaiterOutcome.pending)], 1) := by
  decide

/-- `isTokenExpired` holds exactly on a missing `expiry_date` or one
within `buf` of `now` (for nonnegative `now` and positive `buf`, so the
extra falsy case `expiry_date = 0` coincides with the arithmetic test). -/
theorem isTokenExpired_iff (t : FortnoxTokens) (now buf : Int) (hnow : 0 ≤ now)
    (hbuf : 0 < buf) :
    isTokenExpired t now buf = true ↔
      t.expiry_date = none ∨ ∃ e, t.expiry_date = some e ∧ e - now < buf := by
  cases he : t.expiry_date with
  | none => simp [isTokenExpired, he]
  | some e =>
    by_cases h0 : e = 0
    · subst h0
      constructor
      · intro _
        exact Or.inr ⟨0, rfl, by omega⟩
      · intro _
        simp [isTokenExpired, he]
    · constructor
      · intro h
        refine Or.inr ⟨e, rfl, ?_⟩
        simp only [isTokenExpired, he, if_neg h0, decide_eq_true_eq] at h
        exact h
      · rintro (hn | ⟨e2, he2, hlt⟩)
        · exact Option.noConfusion hn
        · injection he2 with h12
          subst h12
          simp only [isTokenExpired, he, if_neg h0, decide_eq_true_eq]
          exact hlt

/-- `getValidTokens` on a stored credential refreshes exactly when the
credential is expired per `isTokenExpired` with the default buffer. -/
theorem getValidTokens_refresh_iff (t : FortnoxTokens) (now : Int) :
    getValidTokens (some t) now = .refresh ↔
      isTokenExpired t now defaultBufferMs = true := by
  by_cases h : isTokenExpired t now defaultBufferMs <;> simp [getValidTokens, h]

/-- Claim C3: `getValidTokens` fails with NotFound when no credential is
stored; with a stored credential it refreshes exactly when the credential
has no `expiry_date` (treated as expired) or when
`expiry_date - now < 300000` (the 5-minute default buffer); in every other
case it returns the stored credential unchanged.  `0 ≤ now` reflects that
`Date.now()` is nonnegative. -/
theorem getValidTokens_spec (t : FortnoxTokens) (now : Int) (hnow : 0 ≤ now) :
    getValidTokens none now = .notFound
    ∧ (getValidTokens (some t) now = .refresh ↔
        t.expiry_date = none ∨ ∃ e, t.expiry_date = some e ∧ e - now < 300000)
    ∧ (∀ e, t.expiry_date = some e → ¬ e - now < 300000 →
        getValidTokens (some t) now = .valid t) := by
  have hb : defaultBufferMs = 300000 := by norm_num [defaultBufferMs]
  refine ⟨rfl, ?_, ?_⟩
  · rw [getValidTokens_refresh_iff, isTokenExpired_iff t now defaultBufferMs hnow
      (by omega), hb]
  · intro e he hge
    have hx := isTokenExpired_iff t now defaultBufferMs hnow (by rw [hb]; omega)
    have hne : isTokenExpired t now defaultBufferMs = false := by
      rw [Bool.eq_false_iff]
      intro htrue
      rcases hx.mp htrue with h | ⟨e2, he2, hlt⟩
      · rw [he] at h; exact Option.noConfusion h
      · rw [he] at he2
        injection he2 with h12
        subst h12
        rw [hb] at hlt
        exact hge hlt
    simp [getValidTokens, hne]

/-- Witness for C3 at concrete inputs: a credential whose expiry is within
the buffer triggers a refresh, the empty store is NotFound, and a
far-future expiry returns the credential unchanged. -/
theorem getValidTokens_spec_witness :
    getValidTokens none 0 = .notFound
    ∧ getValidTokens (some sampleTokens) 2000 = .refresh
    ∧ getValidTokens (some { sampleTokens with expiry_date := some 900000 }) 0 =
        .valid { sampleTokens with expiry_date := some 900000 } := by
  refine ⟨(getValidTokens_spec sampleTokens 0 (by decide)).1, ?_, ?_⟩
  · exact (getValidTokens_spec sampleTokens 2000 (by decide)).2.1.mpr
      (Or.inr ⟨1000, rfl, by decide⟩)
  · exact (getValidTokens_spec { sampleTokens with expiry_date := some 900000 } 0
      (by decide)).2.2 900000 rfl (by decide)

/-- Claim C2: for a stored credential whose `expiry_date` lies in the
past, any number of concurrent `getValidTokens` callers all transition
into `refreshTokens`; in the episode where they all enter while the first
caller's refresh is in flight, exactly one upstream exchange is started,
and when it succeeds with `newTokens = t` every caller's promise settles
with that same credential `t`. -/
theorem single_flight_refresh (stored t : FortnoxTokens) (e now : Int)
    (cs : List Nat) (hexp : stored.expiry_date = some e) (hpast : e < now)
    (hnow : 0 ≤ now) (hcs : cs ≠ []) :
    getValidTokens (some stored) now = .refresh
    ∧ (refreshEpisode cs (some t)).2 = 1
    ∧ (refreshEpisode cs (some t)).1 =
        cs.map (fun c => (c, WaiterOutcome.settled t)) := by
  refine ⟨?_, ?_⟩
  · exact (getValidTokens_spec stored now hnow).2.1.mpr
      (Or.inr ⟨e, hexp, by omega⟩)
  · match cs with
    | [] => exact absurd rfl hcs
    | c :: cs =>
      have hrun : runEnters initialRefreshState (c :: cs) = (⟨some cs⟩, 1) := by
        simp [runEnters, enterRefresh, initialRefreshState, runEnters_inflight cs []]
      constructor
      · simp [refreshEpisode, hrun]
      · simp [refreshEpisode, hrun, processRefreshQueue, leaderOutcome]

/-- Witness for C2 at concrete inputs: two concurrent callers over an
expired credential start exactly one exchange and both settle with the
same refreshed credential. -/
theorem single_flight_refresh_witness :
    getValidTokens (some sampleTokens) 2000 = .refresh
    ∧ (refreshEpisode [0, 1] (some sampleTokens)).2 = 1
    ∧ (refreshEpisode [0, 1] (some sampleTokens)).1 =
        [(0, WaiterOutcome.settled sampleTokens),
         (1, WaiterOutcome.settled sampleTokens)] :=
  single_flight_refresh sampleTokens sampleTokens 1000 2000 [0, 1] rfl
    (by decide) (by decide) (by decide)

/-! ## In-memory state storage (src/unnamed/part_002, `InMemoryStateStorage`)

The `Map<string, StateEntry>` is modelled as a function from state keys to
optional entries. -/

/-- `StateEntry`: the stored payload with its absolute expiry instant. -/
structure StateEntry where
  data : String
  expires : Int
deriving DecidableEq, Repr

/-- `DEFAULT_EXPIRY_MS = 10 * 60 * 1000`. -/
def defaultExpiryMs : Int := 10 * 60 * 1000

/-- `InMemoryStateStorage.saveState` (part_002 lines 61-67): stores the
entry with `expires = Date.now() + expiryMs`. -/
def saveState (m : String → Option StateEntry) (state data : String)
    (now expiryMs : Int) : String → Option StateEntry :=
  fun s => if s = state then some ⟨data, now + expiryMs⟩ else m s

/-- `InMemoryStateStorage.validateAndRemoveState` (part_002 lines 69-81):
the entry for the key is removed regardless of validity; the data is
returned only when the entry exists and `entry.expires < Date.now()` is
false.  Returns the result and the map after the call. -/
def validateAndRemoveState (m : String → Option StateEntry) (state : String)
    (now : Int) : Option String × (String → Option StateEntry) :=
  let removed := fun s => if s = state then none else m s
  match m state with
  | none => (none, removed)
  | some entry => (if entry.expires < now then none else some entry.data, removed)

/-- Claim C6: after `saveState(s, d, ttl)` at time `tsave`, the first
`validateAndRemoveState(s)` before expiry returns `d`; the call removes
the entry regardless, so a second call returns absent at any time; and a
call after expiry returns absent even though the entry is still
physically present (not yet purged by `clearExpired`). -/
theorem state_take_once_spec (m : String → Option StateEntry) (s d : String)
    (tsave ttl t1 t2 t3 : Int) :
    (¬ tsave + ttl < t1 →
      (validateAndRemoveState (saveState m s d tsave ttl) s t1).1 = some d)
    ∧ (validateAndRemoveState
        (validateAndRemoveState (saveState m s d tsave ttl) s t1).2 s t2).1 = none
    ∧ (tsave + ttl < t3 →
        (validateAndRemoveState (saveState m s d tsave ttl) s t3).1 = none
        ∧ saveState m s d tsave ttl s = some ⟨d, tsave + ttl⟩) := by
  refine ⟨?_, ?_, ?_⟩
  · intro h
    simp [validateAndRemoveState, saveState, h]
  · simp [validateAndRemoveState, saveState]
  · intro h
    constructor
    · simp [validateAndRemoveState, saveState, h]
    · simp [saveState]

/-! ## Postgres token store (src/src/stores/PostgresStore.ts)

The table keyed by `user_id` is modelled as a function from user ids to
optional credential rows; `pool.query` effects are the corresponding pure
map updates. -/

/-- `PostgresStore.saveTokens` (lines 42-68): `INSERT ... ON CONFLICT
(user_id) DO UPDATE SET ...` — an upsert that leaves the row holding the
new values whether or not a row existed. -/
def pgSaveTokens (db : String → Option FortnoxTokens) (userId : String)
    (tokens : FortnoxTokens) : String → Option FortnoxTokens :=
  fun u => if u = userId then some tokens else db u

/-- `PostgresStore.updateTokens` (lines 93-118): a plain `UPDATE ... WHERE
user_id = $1` — it replaces the values of an existing row and matches zero
rows (changing nothing, raising nothing) when no row exists. -/
def pgUpdateTokens (db : String → Option FortnoxTokens) (userId : String)
    (tokens : FortnoxTokens) : String → Option FortnoxTokens :=
  fun u => if u = userId then (db userId).map (fun _ => tokens) else db u

/-- `PostgresStore.getTokens` (lines 70-91): the row for the user, if any. -/
def pgGetTokens (db : String → Option FortnoxTokens) (userId : String) :
    Option FortnoxTokens :=
  db userId

/-- The empty table. -/
def emptyDb : String → Option FortnoxTokens := fun _ => none

/-- Claim C7 counterexample: on an empty table, `updateTokens` stores
nothing — afterwards `getTokens` still returns no row, so `updateTokens`
does not have upsert semantics. -/
theorem pg_updateTokens_no_upsert :
    pgGetTokens (pgUpdateTokens emptyDb "user-1" sampleTokens) "user-1" = none := by
  simp [pgGetTokens, pgUpdateTokens, emptyDb]

/-- Claim C7 as amended: `saveTokens` is a last-write-wins upsert keyed by
`user_id`; `updateTokens` replaces the row only when one exists, and when
no row exists it leaves the whole table unchanged (no row is created). -/
theorem pg_store_semantics (db : String → Option FortnoxTokens) (u v : String)
    (t : FortnoxTokens) :
    pgGetTokens (pgSaveTokens db u t) u = some t
    ∧ ((db u).isSome → pgGetTokens (pgUpdateTokens db u t) u = some t)
    ∧ (db u = none → pgUpdateTokens db u t v = db v) := by
  refine ⟨?_, ?_, ?_⟩
  · simp [pgGetTokens, pgSaveTokens]
  · intro h
    rcases Option.isSome_iff_exists.mp h with ⟨w, hw⟩
    simp [pgGetTokens, pgUpdateTokens, hw]
  · intro h
    by_cases hv : v = u
    · subst hv; simp [pgUpdateTokens, h]
    · simp [pgUpdateTokens, hv]

/-! ## `AuthorizationService.validateState` (AuthorizationService.ts 84-97)

`validateState` reads the stored payload via the state storage, then runs
`const \x7b userId, codeVerifier \x7d = JSON.parse(stateData)` inside
`try/catch`.  `JSON.parse` is an external collaborator: it is modelled by
its outcome, either a thrown `SyntaxError` or a JSON value.  Destructuring
throws (and is caught, yielding `null`) only when the parsed value is
`null`; destructuring any other value yields the properties `userId` and
`codeVerifier`, which are `undefined` (`none`) when not present as object
fields. -/

/-- A JSON value as `JSON.parse` can produce. -/
inductive JsValue where
  | jsNull
  | jsBool (b : Bool)
  | jsNum (n : Int)
  | jsStr (s : String)
  | jsArr (items : List JsValue)
  | jsObj (fields : List (String × JsValue))

/-- Outcome of `JSON.parse` on a payload: a thrown `SyntaxError` or a
value. -/
inductive ParseOutcome where
  | parseError
  | parsed (v : JsValue)

/-- JavaScript property access on a parsed non-null value: an object field
lookup; on every other value the property is `undefined`. -/
def getField : JsValue → String → Option JsValue
  | .jsObj fields, key => lookupField fields key
  | _, _ => none
where
  lookupField : List (String × JsValue) → String → Option JsValue
    | [], _ => none
    | (k, v) :: rest, key => if k = key then some v else lookupField rest key

/-- `AuthorizationService.validateState` given what the state storage
returned for the state (`stored`) and the `JSON.parse` collaborator:
`null` when the storage returned nothing, when parsing threw, or when the
payload parsed to `null` (destructuring `null` throws a `TypeError`,
caught by the same handler); otherwise the destructured `userId` and
`codeVerifier` properties, each possibly `undefined`. -/
def validateState (stored : Option String) (parse : String → ParseOutcome) :
    Option (Option JsValue × Option JsValue) :=
  match stored with
  | none => none
  | some data =>
    match parse data with
    | .parseError => none
    | .parsed .jsNull => none
    | .parsed v => some (getField v "userId", getField v "codeVerifier")

/-- A concrete `JSON.parse` collaborator that parses the payload `"\x7b\x7d"`
to the empty object and rejects everything else. -/
def parseEmptyObject : String → ParseOutcome :=
  fun s => if s = "\x7b\x7d" then .parsed (.jsObj []) else .parseError

/-- Claim C8 counterexample: the stored payload `"\x7b\x7d"` is valid JSON
but not an object carrying `userId` and `codeVerifier` strings, yet
`validateState` does not return `null`: it returns an object whose two
destructured properties are both `undefined`. -/
theorem validateState_object_payload_not_null :
    validateState (some "\x7b\x7d") parseEmptyObject =
      some (none, none)
    ∧ validateState (some "\x7b\x7d") parseEmptyObject ≠ none := by
  constructor
  · rfl
  · intro h
    exact Option.noConfusion h

/-- Claim C8 as amended: `validateState` never raises — every outcome is a
returned value — and it returns `null` exactly when no payload is stored,
the payload is not valid JSON (`JSON.parse` throws), or the payload parses
to JSON `null`; a payload parsing to any other value yields the
destructured `userId` and `codeVerifier` properties, each `undefined`
(absent) when the value does not carry it as an object field. -/
theorem validateState_spec (parse : String → ParseOutcome)
    (stored : Option String) :
    (validateState stored parse = none ↔
      stored = none ∨ ∃ d, stored = some d ∧
        (parse d = .parseError ∨ parse d = .parsed .jsNull))
    ∧ (∀ d v, stored = some d → parse d = .parsed v → v ≠ .jsNull →
        validateState stored parse =
          some (getField v "userId", getField v "codeVerifier")) := by
  constructor
  · cases stored with
    | none => simp [validateState]
    | some d =>
      cases hp : parse d with
      | parseError => simp [validateState, hp]
      | parsed v =>
        cases v <;> simp [validateState, hp]
  · intro d v hd hp hv
    subst hd
    cases v <;> simp_all [validateState]

/-! ## UTF-8 encoding (`Buffer.from(string)` / `hash.update(string)`)

JavaScript strings are modelled as lists of Unicode code points; this is
the UTF-8 byte encoding Node applies when hashing or comparing them as
buffers. -/

/-- UTF-8 bytes of one code point. -/
def charUtf8 (c : Nat) : List Nat :=
  if c < 128 then [c]
  else if c < 2048 then [192 + c / 64, 128 + c % 64]
  else if c < 65536 then [224 + c / 4096, 128 + c / 64 % 64, 128 + c % 64]
  else [240 + c / 262144, 128 + c / 4096 % 64, 128 + c / 64 % 64, 128 + c % 64]

/-- UTF-8 bytes of a string (as its code points). -/
def utf8Bytes : List Nat → List Nat
  | [] => []
  | c :: cs => charUtf8 c ++ utf8Bytes cs

/-- On ASCII-only strings, UTF-8 encoding is the identity on code points. -/
theorem utf8Bytes_ascii (s : List Nat) (h : ∀ c ∈ s, c < 128) :
    utf8Bytes s = s := by
  induction s with
  | nil => rfl
  | cons c cs ih =>
    have hc : c < 128 := h c (List.mem_cons_self c cs)
    simp [utf8Bytes, charUtf8, hc, ih fun x hx => h x (List.mem_cons_of_mem c hx)]

/-! ## PKCE utilities (src/src/utils/PKCE.ts)

`crypto.createHash('sha256')` is an external collaborator: the theorems
take the digest function `sha` as a parameter (its output is 32 bytes).
`digest('base64url')` and `toString('base64url')` are modelled by
`base64urlEncode` below (URL-safe alphabet, no padding). -/

/-- The base64url alphabet as a map from a 6-bit index to the character's
code point (`A-Z`, `a-z`, `0-9`, `-`, `_`). -/
def b64Char (i : Nat) : Nat :=
  if i < 26 then 65 + i
  else if i < 52 then 97 + (i - 26)
  else if i < 62 then 48 + (i - 52)
  else if i = 62 then 45
  else 95

/-- Base64url encoding without padding: three input bytes map to four
characters, a final group of two bytes to three characters and of one byte
to two characters. -/
def base64urlEncode : List Nat → List Nat
  | b1 :: b2 :: b3 :: rest =>
    b64Char (b1 / 4) :: b64Char (b1 % 4 * 16 + b2 / 16) ::
      b64Char (b2 % 16 * 4 + b3 / 64) :: b64Char (b3 % 64) ::
      base64urlEncode rest
  | [b1, b2] => [b64Char (b1 / 4), b64Char (b1 % 4 * 16 + b2 / 16), b64Char (b2 % 16 * 4)]
  | [b1] => [b64Char (b1 / 4), b64Char (b1 % 4 * 16)]
  | [] => []

/-- Every character of the base64url alphabet is ASCII. -/
theorem b64Char_lt (i : Nat) : b64Char i < 128 := by
  unfold b64Char
  split_ifs <;> omega

/-- Length of a base64url encoding: `ceil(8n/6)` characters for `n` bytes. -/
theorem base64urlEncode_length (bs : List Nat) :
    (base64urlEncode bs).length = (4 * bs.length + 2) / 3 := by
  induction bs using base64urlEncode.induct with
  | case1 b1 b2 b3 rest ih =>
    simp only [base64urlEncode, List.length_cons]
    omega
  | case2 b1 b2 => simp [base64urlEncode]
  | case3 b1 => simp [base64urlEncode]
  | case4 => simp [base64urlEncode]

/-- A base64url encoding contains only ASCII code points. -/
theorem base64urlEncode_ascii (bs : List Nat) :
    ∀ c ∈ base64urlEncode bs, c < 128 := by
  induction bs using base64urlEncode.induct with
  | case1 b1 b2 b3 rest ih =>
    intro c hc
    simp only [base64urlEncode, List.mem_cons] at hc
    rcases hc with h | h | h | h | h
    · exact h ▸ b64Char_lt _
    · exact h ▸ b64Char_lt _
    · exact h ▸ b64Char_lt _
    · exact h ▸ b64Char_lt _
    · exact ih c h
  | case2 b1 b2 =>
    intro c hc
    simp only [base64urlEncode, List.mem_cons] at hc
    rcases hc with h | h | h | h
    · exact h ▸ b64Char_lt _
    · exact h ▸ b64Char_lt _
    · exact h ▸ b64Char_lt _
    · cases h
  | case3 b1 =>
    intro c hc
    simp only [base64urlEncode, List.mem_cons] at hc
    rcases hc with h | h | h
    · exact h ▸ b64Char_lt _
    · exact h ▸ b64Char_lt _
    · cases h
  | case4 => intro c hc; cases hc

/-- The errors the PKCE utilities can throw: `invalidParameter` is
`createCodeVerifier`'s `'Code verifier length must be between 43 and 128
characters'`, `invalidVerifier` is `createCodeChallenge`'s `'Invalid code
verifier'`, and `lengthMismatch` is the `RangeError` that
`crypto.timingSafeEqual` raises on buffers of different byte length. -/
inductive PkceError where
  | invalidParameter
  | invalidVerifier
  | lengthMismatch
deriving DecidableEq, Repr

/-- `createCodeVerifier` (PKCE.ts lines 207-212): rejects a length outside
`[43, 128]`, otherwise takes the first `length` characters of the
base64url encoding of `length` random bytes (`randomBytes` is the
`crypto.randomBytes` collaborator). -/
def createCodeVerifier (randomBytes : Nat → List Nat) (len : Nat) :
    Except PkceError (List Nat) :=
  if len < 43 ∨ 128 < len then .error .invalidParameter
  else .ok ((base64urlEncode (randomBytes len)).take len)

/-- `createCodeChallenge` (PKCE.ts lines 220-230): rejects a verifier that
is empty or of length outside `[43, 128]` (the emptiness test is subsumed
by the length test), otherwise the base64url-encoded `sha` digest of the
verifier's UTF-8 bytes. -/
def createCodeChallenge (sha : List Nat → List Nat) (codeVerifier : List Nat) :
    Except PkceError (List Nat) :=
  if codeVerifier.length < 43 ∨ 128 < codeVerifier.length then
    .error .invalidVerifier
  else .ok (base64urlEncode (sha (utf8Bytes codeVerifier)))

/-- `crypto.timingSafeEqual` on the UTF-8 buffers of two strings: a
`RangeError` when the byte lengths differ, otherwise constant-time
equality of the bytes. -/
def timingSafeEqual (a b : List Nat) : Except PkceError Bool :=
  if a.length = b.length then .ok (decide (a = b)) else .error .lengthMismatch

/-- `verifyCodeChallenge` (PKCE.ts lines 250-262): `false` when either
input is empty; otherwise it recomputes the challenge (whose exceptions
propagate) and compares `Buffer.from(calculatedChallenge)` with
`Buffer.from(codeChallenge)` via `crypto.timingSafeEqual`. -/
def verifyCodeChallenge (sha : List Nat → List Nat)
    (codeVerifier codeChallenge : List Nat) : Except PkceError Bool :=
  if codeVerifier = [] ∨ codeChallenge = [] then .ok false
  else
    match createCodeChallenge sha codeVerifier with
    | .error e => .error e
    | .ok calculated => timingSafeEqual (utf8Bytes calculated) (utf8Bytes codeChallenge)

/-- The recomputed challenge of a valid verifier is a 43-character
ASCII string, so its UTF-8 buffer is those 43 code points. -/
theorem challenge_utf8 (sha : List Nat → List Nat) (x : List Nat)
    (hsha : (sha x).length = 32) :
    utf8Bytes (base64urlEncode (sha x)) = base64urlEncode (sha x)
    ∧ (base64urlEncode (sha x)).length = 43 := by
  have hlen : (base64urlEncode (sha x)).length = 43 := by
    rw [base64urlEncode_length, hsha]
  exact ⟨utf8Bytes_ascii _ (base64urlEncode_ascii (sha x)), hlen⟩

/-- Claim C9 as amended: for verifiers of length in `[43, 128]`, the
challenge is the deterministic value `base64urlEncode (sha (utf8 v))` and
`verifyCodeChallenge` accepts the matching pair; it returns `false` for
any challenge of the same 43-byte UTF-8 length with different bytes, and
for any valid mutated verifier whose recomputed challenge differs; and
`createCodeVerifier` fails with `invalidParameter` for every length
outside `[43, 128]`.  (A challenge mutation that changes the UTF-8 byte
length is not rejected with `false` — it throws; see the counterexample.) -/
theorem pkce_verify_spec (sha : List Nat → List Nat) (v : List Nat)
    (hsha : ∀ bs, (sha bs).length = 32)
    (h43 : 43 ≤ v.length) (h128 : v.length ≤ 128) :
    createCodeChallenge sha v = .ok (base64urlEncode (sha (utf8Bytes v)))
    ∧ verifyCodeChallenge sha v (base64urlEncode (sha (utf8Bytes v))) = .ok true
    ∧ (∀ c, (utf8Bytes c).length = 43 →
        utf8Bytes c ≠ utf8Bytes (base64urlEncode (sha (utf8Bytes v))) →
        verifyCodeChallenge sha v c = .ok false)
    ∧ (∀ w, 43 ≤ w.length → w.length ≤ 128 →
        base64urlEncode (sha (utf8Bytes w)) ≠ base64urlEncode (sha (utf8Bytes v)) →
        verifyCodeChallenge sha w (base64urlEncode (sha (utf8Bytes v))) = .ok false)
    ∧ (∀ rb n, n < 43 ∨ 128 < n → createCodeVerifier rb n = .error .invalidParameter) := by
  have hv : v ≠ [] := by
    intro h; subst h; simp at h43
  have hcond : ¬ (v.length < 43 ∨ 128 < v.length) := by omega
  have hchal : createCodeChallenge sha v = .ok (base64urlEncode (sha (utf8Bytes v))) := by
    simp [createCodeChallenge, hcond]
  obtain ⟨hcu, hclen⟩ := challenge_utf8 sha (utf8Bytes v) (hsha _)
  have hcne : base64urlEncode (sha (utf8Bytes v)) ≠ [] := by
    intro h
    rw [h] at hclen
    simp at hclen
  refine ⟨hchal, ?_, ?_, ?_, ?_⟩
  · simp [verifyCodeChallenge, hv, hcne, hchal, timingSafeEqual]
  · intro c hc43 hcnebytes
    have hcne2 : c ≠ [] := by
      intro h; subst h; simp [utf8Bytes] at hc43
    have hlens : (utf8Bytes (base64urlEncode (sha (utf8Bytes v)))).length =
        (utf8Bytes c).length := by rw [hcu, hclen, hc43]
    simp only [verifyCodeChallenge, hv, hcne2, or_self, if_neg, hchal,
      timingSafeEqual, if_pos hlens, reduceIte]
    simp only [Except.ok.injEq, decide_eq_false_iff_not]
    exact fun h => hcnebytes h.symm
  · intro w h43w h128w hne
    have hw : w ≠ [] := by intro h; subst h; simp at h43w
    have hcondw : ¬ (w.length < 43 ∨ 128 < w.length) := by omega
    have hchalw : createCodeChallenge sha w = .ok (base64urlEncode (sha (utf8Bytes w))) := by
      simp [createCodeChallenge, hcondw]
    obtain ⟨hcuw, hclenw⟩ := challenge_utf8 sha (utf8Bytes w) (hsha _)
    have hlens : (utf8Bytes (base64urlEncode (sha (utf8Bytes w)))).length =
        (utf8Bytes (base64urlEncode (sha (utf8Bytes v)))).length := by
      rw [hcuw, hcu, hclenw, hclen]
    simp only [verifyCodeChallenge, hw, hcne, or_self, if_neg, hchalw,
      timingSafeEqual, if_pos hlens, reduceIte]
    simp only [Except.ok.injEq, decide_eq_false_iff_not]
    rw [hcuw, hcu]
    exact hne
  · intro rb n hn
    simp [createCodeVerifier, hn]

/-- The SHA-256 collaborator instantiated at a concrete digest function
(constant 32-byte output), for evaluating the PKCE theorems. -/
def sha0 : List Nat → List Nat := fun _ => List.replicate 32 0

/-- A concrete valid verifier: 43 repetitions of `'a'`. -/
def verifier0 : List Nat := List.replicate 43 97

/-- The challenge `sha0` assigns to every verifier: 43 repetitions of `'A'`. -/
def challenge0 : List Nat := base64urlEncode (List.replicate 32 0)

/-- Witness for C9 at concrete inputs: the challenge of `verifier0` is
computed, the matching pair verifies, a same-length corruption is
rejected with `false`, and an out-of-range verifier length fails with
`invalidParameter`. -/
theorem pkce_verify_spec_witness :
    createCodeChallenge sha0 verifier0 = .ok challenge0
    ∧ verifyCodeChallenge sha0 verifier0 challenge0 = .ok true
    ∧ verifyCodeChallenge sha0 verifier0 (98 :: List.replicate 42 65) = .ok false
    ∧ createCodeVerifier (fun n => List.replicate n 0) 42 = .error .invalidParameter := by
  have h := pkce_verify_spec sha0 verifier0 (fun bs => by simp [sha0])
    (by simp [verifier0]) (by simp [verifier0])
  refine ⟨h.1, h.2.1, ?_, h.2.2.2.2 (fun n => List.replicate n 0) 42 (by omega)⟩
  exact h.2.2.1 (98 :: List.replicate 42 65) (by decide) (by decide)

/-- Claim C9 counterexample: flipping the top bit of the first character
of the correct challenge (`'A'`, code 65, to code `65 ^^^ 128 = 193`) is a
single-bit mutation of the challenge, but `verifyCodeChallenge` does not
return `false` on it: the mutated character occupies two UTF-8 bytes, the
buffers have lengths 44 and 43, and `crypto.timingSafeEqual` throws a
`RangeError` instead. -/
theorem pkce_verify_bit_flip_throws :
    createCodeChallenge sha0 verifier0 = .ok challenge0
    ∧ challenge0 = 65 :: List.replicate 42 65
    ∧ (65 ^^^ 128 : Nat) = 193
    ∧ verifyCodeChallenge sha0 verifier0 (193 :: List.replicate 42 65) =
        .error .lengthMismatch :=
  ⟨rfl, by decide, by decide, rfl⟩

/-- Claim C10: with a 32-byte digest, `verifyCodeChallenge` — though
typed as returning a boolean — throws instead of returning `false`
(a) whenever the supplied non-empty challenge's UTF-8 byte length differs
from the 43 bytes of the recomputed challenge (`crypto.timingSafeEqual`
raises a `RangeError` on length-mismatched buffers), and (b) whenever the
verifier is non-empty with length outside `[43, 128]`
(`createCodeChallenge` throws before any comparison). -/
theorem verifyCodeChallenge_throw_conditions (sha : List Nat → List Nat)
    (v c : List Nat) (hsha : ∀ bs, (sha bs).length = 32) :
    (43 ≤ v.length → v.length ≤ 128 → c ≠ [] → (utf8Bytes c).length ≠ 43 →
      verifyCodeChallenge sha v c = .error .lengthMismatch)
    ∧ (v ≠ [] → (v.length < 43 ∨ 128 < v.length) → c ≠ [] →
      verifyCodeChallenge sha v c = .error .invalidVerifier) := by
  constructor
  · intro h43 h128 hc hlen
    have hv : v ≠ [] := by intro h; subst h; simp at h43
    have hcond : ¬ (v.length < 43 ∨ 128 < v.length) := by omega
    have hchal : createCodeChallenge sha v = .ok (base64urlEncode (sha (utf8Bytes v))) := by
      simp [createCodeChallenge, hcond]
    obtain ⟨hcu, hclen⟩ := challenge_utf8 sha (utf8Bytes v) (hsha _)
    have hlens : (utf8Bytes (base64urlEncode (sha (utf8Bytes v)))).length ≠
        (utf8Bytes c).length := by
      rw [hcu, hclen]
      exact fun h => hlen h.symm
    simp [verifyCodeChallenge, hv, hc, hchal, timingSafeEqual, hlens]
  · intro hv hcond hc
    have : createCodeChallenge sha v = .error .invalidVerifier := by
      simp [createCodeChallenge, hcond]
    simp [verifyCodeChallenge, hv, hc, this]

/-- Witness for C10 at concrete inputs: a one-character challenge (two
UTF-8 bytes) makes verification throw `RangeError`, and a one-character
verifier makes it throw `'Invalid code verifier'`. -/
theorem verifyCodeChallenge_throw_conditions_witness :
    verifyCodeChallenge sha0 verifier0 [193] = .error .lengthMismatch
    ∧ verifyCodeChallenge sha0 [97] challenge0 = .error .invalidVerifier := by
  have hsha : ∀ bs, (sha0 bs).length = 32 := fun bs => by simp [sha0]
  constructor
  · exact (verifyCodeChallenge_throw_conditions sha0 verifier0 [193] hsha).1
      (by simp [verifier0]) (by simp [verifier0]) (by decide) (by decide)
  · exact (verifyCodeChallenge_throw_conditions sha0 [97] challenge0 hsha).2
      (by decide) (by decide) (by decide)

/-! ## Hex codec (`Buffer.prototype.toString('hex')` / `Buffer.from(s, 'hex')`)

The encryption blob is a hex string; hex decoding accepts both lowercase
and uppercase digits and stops at the first invalid pair. -/

/-- The lowercase hex digit (as a code point) of a value below 16 —
`toString('hex')` emits lowercase. -/
def hexDigitCp (n : Nat) : Nat :=
  if n < 10 then 48 + n else 87 + n

/-- Hex encoding of a byte list: two lowercase digits per byte. -/
def hexEncode : List Nat → List Nat
  | [] => []
  | b :: bs => hexDigitCp (b / 16) :: hexDigitCp (b % 16) :: hexEncode bs

/-- The value of one hex digit character; `Buffer.from(s, 'hex')` accepts
`0-9`, `a-f` and `A-F`. -/
def hexVal (c : Nat) : Option Nat :=
  if 48 ≤ c ∧ c ≤ 57 then some (c - 48)
  else if 97 ≤ c ∧ c ≤ 102 then some (c - 87)
  else if 65 ≤ c ∧ c ≤ 70 then some (c - 55)
  else none

/-- Hex decoding: bytes from digit pairs, stopping at the first invalid
pair (and dropping a trailing lone digit), as `Buffer.from(s, 'hex')`
does. -/
def hexDecode : List Nat → List Nat
  | c1 :: c2 :: rest =>
    match hexVal c1, hexVal c2 with
    | some hi, some lo => (16 * hi + lo) :: hexDecode rest
    | _, _ => []
  | _ => []

/-- Hex digits of values below 16 decode back to the value. -/
theorem hexVal_hexDigitCp (n : Nat) (h : n < 16) :
    hexVal (hexDigitCp n) = some n := by
  unfold hexVal hexDigitCp
  by_cases h10 : n < 10
  · rw [if_pos h10, if_pos (by omega)]
    congr 1
    omega
  · rw [if_neg h10, if_neg (by omega), if_pos (by omega)]
    congr 1
    omega

/-- Hex decoding inverts hex encoding on byte lists. -/
theorem hexDecode_hexEncode (bs : List Nat) (h : ∀ b ∈ bs, b < 256) :
    hexDecode (hexEncode bs) = bs := by
  induction bs with
  | nil => rfl
  | cons b bs ih =>
    have hb : b < 256 := h b (List.mem_cons_self b bs)
    have h1 : b / 16 < 16 := by omega
    have h2 : b % 16 < 16 := by omega
    have hrest := ih fun x hx => h x (List.mem_cons_of_mem b hx)
    simp only [hexEncode, hexDecode, hexVal_hexDigitCp _ h1, hexVal_hexDigitCp _ h2,
      hrest]
    congr 1
    omega

/-- Every character a hex encoding emits is a lowercase hex digit — in
particular never the uppercase letter `'A'` (code point 65). -/
theorem mem_hexEncode (bs : List Nat) (c : Nat) (h : c ∈ hexEncode bs) :
    ∃ n, c = hexDigitCp n := by
  induction bs with
  | nil => cases h
  | cons b bs ih =>
    simp only [hexEncode, List.mem_cons] at h
    rcases h with h | h | h
    · exact ⟨b / 16, h⟩
    · exact ⟨b % 16, h⟩
    · exact ih h

/-! ## Token codec (src/src/stores/TokenEncryption.ts, key configured)

`encrypt` (lines 69-96) draws a fresh IV, runs AES-256-GCM and returns
`hex(iv ‖ authTag ‖ ciphertext)`; `decrypt` (lines 103-132) hex-decodes,
splits at offsets 16 and 32, verifies the authentication tag and returns
the plaintext, turning any internal throw into `'Decryption failed: ...'`.
The AES-256-GCM core of Node's `crypto` is an external collaborator,
modelled by its structure: GCM encrypts in counter mode, so the ciphertext
is the plaintext XORed with a keystream determined by key and IV (`prf`),
and the authentication tag is a deterministic 16-byte function of key, IV
and ciphertext (`tagF`); decryption recomputes the tag over the received
ciphertext and fails unless it matches. -/

/-- The error of `TokenEncryption.decrypt`: every internal throw is
rethrown as `'Decryption failed: ...'`. -/
inductive DecryptionError where
  | decryptionFailed
deriving DecidableEq, Repr

/-- The first `n` bytes of the CTR keystream `f`. -/
def keystream (f : Nat → Nat) (n : Nat) : List Nat :=
  (List.range n).map f

/-- Byte-wise XOR of two equally long byte lists. -/
def xorBytes (a b : List Nat) : List Nat :=
  List.zipWith (fun x y => x ^^^ y) a b

/-- `TokenEncryption.encrypt` with a key configured, at the byte level:
the blob is the hex encoding of `iv ‖ tag ‖ ciphertext` where the
ciphertext is the plaintext XORed with the keystream of `key` and `iv`,
and the tag is `tagF` of key, IV and ciphertext. -/
def encryptBytes (prf : List Nat → List Nat → Nat → Nat)
    (tagF : List Nat → List Nat → List Nat → List Nat)
    (key iv pt : List Nat) : List Nat :=
  let ct := xorBytes pt (keystream (prf key iv) pt.length)
  hexEncode (iv ++ tagF key iv ct ++ ct)

/-- `TokenEncryption.decrypt` with a key configured, at the byte level:
hex-decode the blob, split `iv = bytes[0..16)`, `tag = bytes[16..32)`,
`ct = bytes[32..)`, recompute the tag over `ct` and fail with
`DecryptionFailed` unless it matches; on a match return the XOR of `ct`
with the keystream. -/
def decryptBytes (prf : List Nat → List Nat → Nat → Nat)
    (tagF : List Nat → List Nat → List Nat → List Nat)
    (key blob : List Nat) : Except DecryptionError (List Nat) :=
  let bytes := hexDecode blob
  let iv := bytes.take 16
  let tag := (bytes.drop 16).take 16
  let ct := bytes.drop 32
  if tagF key iv ct = tag then
    .ok (xorBytes ct (keystream (prf key iv) ct.length))
  else .error .decryptionFailed

/-- `encrypt` on a plaintext string (code points): the bytes encrypted are
the string's UTF-8 encoding (`cipher.update(text, 'utf8')`). -/
def encrypt (prf : List Nat → List Nat → Nat → Nat)
    (tagF : List Nat → List Nat → List Nat → List Nat)
    (key iv text : List Nat) : List Nat :=
  encryptBytes prf tagF key iv (utf8Bytes text)

/-- Lossy UTF-8 decoding as `toString('utf8')` applies to the decrypted
bytes: well-formed sequences decode to their code points, anything else
to the replacement character `U+FFFD`. -/
def utf8DecodeLossy : List Nat → List Nat
  | [] => []
  | b :: bs =>
    if b < 128 then b :: utf8DecodeLossy bs
    else if b < 192 then 65533 :: utf8DecodeLossy bs
    else if b < 224 then
      if 128 ≤ bs.getD 0 0 ∧ bs.getD 0 0 < 192 then
        ((b - 192) * 64 + (bs.getD 0 0 - 128)) :: utf8DecodeLossy (bs.drop 1)
      else 65533 :: utf8DecodeLossy bs
    else if b < 240 then
      if (128 ≤ bs.getD 0 0 ∧ bs.getD 0 0 < 192) ∧
          128 ≤ bs.getD 1 0 ∧ bs.getD 1 0 < 192 then
        ((b - 224) * 4096 + (bs.getD 0 0 - 128) * 64 + (bs.getD 1 0 - 128)) ::
          utf8DecodeLossy (bs.drop 2)
      else 65533 :: utf8DecodeLossy bs
    else
      if (128 ≤ bs.getD 0 0 ∧ bs.getD 0 0 < 192) ∧
          (128 ≤ bs.getD 1 0 ∧ bs.getD 1 0 < 192) ∧
          128 ≤ bs.getD 2 0 ∧ bs.getD 2 0 < 192 then
        ((b - 240) * 262144 + (bs.getD 0 0 - 128) * 4096 + (bs.getD 1 0 - 128) * 64 +
            (bs.getD 2 0 - 128)) :: utf8DecodeLossy (bs.drop 3)
      else 65533 :: utf8DecodeLossy bs
termination_by l => l.length
decreasing_by all_goals simp_wf <;> omega

/-- `decrypt` on a blob, returning the decrypted bytes decoded as UTF-8. -/
def decrypt (prf : List Nat → List Nat → Nat → Nat)
    (tagF : List Nat → List Nat → List Nat → List Nat)
    (key blob : List Nat) : Except DecryptionError (List Nat) :=
  (decryptBytes prf tagF key blob).map utf8DecodeLossy

/-- Unfolding `utf8DecodeLossy` on the empty stream. -/
theorem utf8DecodeLossy_nil : utf8DecodeLossy [] = [] := by
  rw [utf8DecodeLossy.eq_def]

/-- Unfolding `utf8DecodeLossy` on an ASCII byte. -/
theorem utf8DecodeLossy_one (b : Nat) (bs : List Nat) (h : b < 128) :
    utf8DecodeLossy (b :: bs) = b :: utf8DecodeLossy bs := by
  rw [utf8DecodeLossy.eq_def]
  dsimp only
  rw [if_pos h]

/-- Unfolding `utf8DecodeLossy` on a well-formed two-byte sequence. -/
theorem utf8DecodeLossy_two (b b2 : Nat) (bs : List Nat) (h1 : 192 ≤ b)
    (h2 : b < 224) (h3 : 128 ≤ b2 ∧ b2 < 192) :
    utf8DecodeLossy (b :: b2 :: bs) =
      ((b - 192) * 64 + (b2 - 128)) :: utf8DecodeLossy bs := by
  rw [utf8DecodeLossy.eq_def]
  dsimp only
  simp only [List.getD_cons_zero, List.getD_cons_succ, List.drop_succ_cons,
    List.drop_zero]
  rw [if_neg (by omega), if_neg (by omega), if_pos h2, if_pos h3]

/-- Unfolding `utf8DecodeLossy` on a well-formed three-byte sequence. -/
theorem utf8DecodeLossy_three (b b2 b3 : Nat) (bs : List Nat) (h1 : 224 ≤ b)
    (h2 : b < 240) (h3 : (128 ≤ b2 ∧ b2 < 192) ∧ 128 ≤ b3 ∧ b3 < 192) :
    utf8DecodeLossy (b :: b2 :: b3 :: bs) =
      ((b - 224) * 4096 + (b2 - 128) * 64 + (b3 - 128)) :: utf8DecodeLossy bs := by
  rw [utf8DecodeLossy.eq_def]
  dsimp only
  simp only [List.getD_cons_zero, List.getD_cons_succ, List.drop_succ_cons,
    List.drop_zero]
  rw [if_neg (by omega), if_neg (by omega), if_neg (by omega), if_pos h2, if_pos h3]

/-- Unfolding `utf8DecodeLossy` on a well-formed four-byte sequence. -/
theorem utf8DecodeLossy_four (b b2 b3 b4 : Nat) (bs : List Nat) (h1 : 240 ≤ b)
    (h3 : (128 ≤ b2 ∧ b2 < 192) ∧ (128 ≤ b3 ∧ b3 < 192) ∧ 128 ≤ b4 ∧ b4 < 192) :
    utf8DecodeLossy (b :: b2 :: b3 :: b4 :: bs) =
      ((b - 240) * 262144 + (b2 - 128) * 4096 + (b3 - 128) * 64 + (b4 - 128)) ::
        utf8DecodeLossy bs := by
  rw [utf8DecodeLossy.eq_def]
  dsimp only
  simp only [List.getD_cons_zero, List.getD_cons_succ, List.drop_succ_cons,
    List.drop_zero]
  rw [if_neg (by omega), if_neg (by omega), if_neg (by omega), if_neg (by omega),
    if_pos h3]

/-- Decoding one well-formed encoded code point at the front of a byte
stream yields that code point and continues with the rest. -/
theorem utf8DecodeLossy_charUtf8 (c : Nat) (rest : List Nat)
    (h : c < 1114112) :
    utf8DecodeLossy (charUtf8 c ++ rest) = c :: utf8DecodeLossy rest := by
  by_cases h1 : c < 128
  · rw [show charUtf8 c = [c] from by simp [charUtf8, h1], List.cons_append,
      List.nil_append, utf8DecodeLossy_one c rest h1]
  · by_cases h2 : c < 2048
    · rw [show charUtf8 c = [192 + c / 64, 128 + c % 64] from by
        simp [charUtf8, h1, h2]]
      simp only [List.cons_append, List.nil_append]
      rw [utf8DecodeLossy_two _ _ _ (by omega) (by omega) (by omega)]
      congr 1
      omega
    · by_cases h3 : c < 65536
      · rw [show charUtf8 c = [224 + c / 4096, 128 + c / 64 % 64, 128 + c % 64] from by
          simp [charUtf8, h1, h2, h3]]
        simp only [List.cons_append, List.nil_append]
        rw [utf8DecodeLossy_three _ _ _ _ (by omega) (by omega) (by omega)]
        congr 1
        omega
      · rw [show charUtf8 c =
            [240 + c / 262144, 128 + c / 4096 % 64, 128 + c / 64 % 64, 128 + c % 64] from by
          simp [charUtf8, h1, h2, h3]]
        simp only [List.cons_append, List.nil_append]
        rw [utf8DecodeLossy_four _ _ _ _ _ (by omega) (by omega)]
        congr 1
        omega

/-- UTF-8 decoding inverts UTF-8 encoding on strings of valid code
points. -/
theorem utf8DecodeLossy_utf8Bytes (s : List Nat) (h : ∀ c ∈ s, c < 1114112) :
    utf8DecodeLossy (utf8Bytes s) = s := by
  induction s with
  | nil => exact utf8DecodeLossy_nil
  | cons c cs ih =>
    rw [utf8Bytes, utf8DecodeLossy_charUtf8 c _ (h c (List.mem_cons_self c cs)),
      ih fun x hx => h x (List.mem_cons_of_mem c hx)]

/-- The UTF-8 encoding of a valid code point consists of bytes. -/
theorem charUtf8_lt (c : Nat) (h : c < 1114112) : ∀ b ∈ charUtf8 c, b < 256 := by
  intro b hb
  unfold charUtf8 at hb
  split_ifs at hb <;> simp only [List.mem_cons, List.mem_singleton] at hb <;>
    rcases hb with rfl | hb <;> first
      | omega
      | (rcases hb with rfl | hb <;> first
          | omega
          | (rcases hb with rfl | hb <;> first
              | omega
              | (rcases hb with rfl | hb <;> first | omega | cases hb)))

/-- The UTF-8 encoding of a string of valid code points consists of
bytes. -/
theorem utf8Bytes_lt (s : List Nat) (h : ∀ c ∈ s, c < 1114112) :
    ∀ b ∈ utf8Bytes s, b < 256 := by
  induction s with
  | nil => intro b hb; cases hb
  | cons c cs ih =>
    intro b hb
    rw [utf8Bytes] at hb
    rcases List.mem_append.mp hb with hb | hb
    · exact charUtf8_lt c (h c (List.mem_cons_self c cs)) b hb
    · exact ih (fun x hx => h x (List.mem_cons_of_mem c hx)) b hb

/-- XOR of byte lists stays within bytes. -/
theorem xorBytes_lt (a : List Nat) :
    ∀ b, (∀ x ∈ a, x < 256) → (∀ x ∈ b, x < 256) →
      ∀ x ∈ xorBytes a b, x < 256 := by
  induction a with
  | nil => intro b _ _ x hx; simp [xorBytes] at hx
  | cons p a ih =>
    intro b ha hb x hx
    cases b with
    | nil => simp [xorBytes] at hx
    | cons q b =>
      simp only [xorBytes, List.zipWith_cons_cons, List.mem_cons] at hx
      rcases hx with rfl | hx
      · exact Nat.xor_lt_two_pow (n := 8) (ha p (by simp)) (hb q (by simp))
      · exact ih b (fun y hy => ha y (by simp [hy])) (fun y hy => hb y (by simp [hy]))
          x hx

/-- XOR with the same equally long keystream twice is the identity. -/
theorem xorBytes_cancel (a : List Nat) :
    ∀ b, a.length = b.length → xorBytes (xorBytes a b) b = a := by
  induction a with
  | nil => intro b h; cases b <;> simp [xorBytes]
  | cons x a ih =>
    intro b h
    cases b with
    | nil => cases h
    | cons y b =>
      simp only [xorBytes, List.zipWith_cons_cons] at *
      rw [Nat.xor_cancel_right, ih b (by simpa using h)]

/-- The splitting `decrypt` performs recovers the three components of a
well-formed blob. -/
theorem split_blob (iv tag ct : List Nat) (hiv : iv.length = 16)
    (htag : tag.length = 16) :
    (iv ++ tag ++ ct).take 16 = iv
    ∧ ((iv ++ tag ++ ct).drop 16).take 16 = tag
    ∧ (iv ++ tag ++ ct).drop 32 = ct := by
  rw [List.append_assoc]
  refine ⟨List.take_left' hiv, ?_, ?_⟩
  · rw [List.drop_left' hiv]
    exact List.take_left' htag
  · rw [show (32 : Nat) = 16 + 16 from rfl, ← List.drop_drop,
      List.drop_left' hiv, List.drop_left' htag]

/-- Claim C4: with a key configured, decrypting an encryption returns the
original plaintext, for every string of valid code points — including the
empty string and strings with non-ASCII characters.  `prf` and `tagF` are
the AES-256-GCM collaborator (deterministic byte-valued keystream, 16-byte
deterministic tag); `iv` is the random IV `encrypt` drew. -/
theorem encrypt_decrypt_roundtrip (prf : List Nat → List Nat → Nat → Nat)
    (tagF : List Nat → List Nat → List Nat → List Nat) (key iv text : List Nat)
    (hiv : iv.length = 16) (hivb : ∀ b ∈ iv, b < 256)
    (htaglen : ∀ k i c, (tagF k i c).length = 16)
    (htagb : ∀ k i c, ∀ b ∈ tagF k i c, b < 256)
    (hprf : ∀ k i n, prf k i n < 256)
    (htext : ∀ c ∈ text, c < 1114112) :
    decrypt prf tagF key (encrypt prf tagF key iv text) = .ok text := by
  have hptb : ∀ b ∈ utf8Bytes text, b < 256 := utf8Bytes_lt text htext
  have hksl : (keystream (prf key iv) (utf8Bytes text).length).length =
      (utf8Bytes text).length := by simp [keystream]
  have hksb : ∀ b ∈ keystream (prf key iv) (utf8Bytes text).length, b < 256 := by
    intro b hb
    rcases List.mem_map.mp hb with ⟨i, _, rfl⟩
    exact hprf key iv i
  have hctb : ∀ b ∈ xorBytes (utf8Bytes text)
      (keystream (prf key iv) (utf8Bytes text).length), b < 256 :=
    xorBytes_lt _ _ hptb hksb

  have hctl : (xorBytes (utf8Bytes text)
      (keystream (prf key iv) (utf8Bytes text).length)).length =
      (utf8Bytes text).length := by
    simp [xorBytes, List.length_zipWith, hksl]
  set ct := xorBytes (utf8Bytes text) (keystream (prf key iv) (utf8Bytes text).length)
    with hct
  have hall : ∀ b ∈ iv ++ tagF key iv ct ++ ct, b < 256 := by
    intro b hb
    rcases List.mem_append.mp hb with hb | hb
    · rcases List.mem_append.mp hb with hb | hb
      · exact hivb b hb
      · exact htagb key iv ct b hb
    · exact hctb b hb
  have hdec : hexDecode (hexEncode (iv ++ tagF key iv ct ++ ct)) =
      iv ++ tagF key iv ct ++ ct := hexDecode_hexEncode _ hall
  obtain ⟨hs1, hs2, hs3⟩ := split_blob iv (tagF key iv ct) ct hiv (htaglen key iv ct)
  have hstep : decryptBytes prf tagF key (encrypt prf tagF key iv text) =
      .ok (xorBytes ct (keystream (prf key iv) ct.length)) := by
    unfold decryptBytes encrypt encryptBytes
    dsimp only
    rw [← hct, hdec, hs1, hs2, hs3, if_pos rfl]
  unfold decrypt
  rw [hstep]
  show Except.ok (utf8DecodeLossy (xorBytes ct (keystream (prf key iv) ct.length))) =
    Except.ok text
  congr 1
  rw [hctl, hct, xorBytes_cancel _ _ hksl.symm,
    utf8DecodeLossy_utf8Bytes text htext]

/-- A concrete keystream collaborator (constant byte 7). -/
def prfc : List Nat → List Nat → Nat → Nat := fun _ _ _ => 7

/-- A concrete 16-byte tag collaborator (constant byte 10). -/
def tagFc : List Nat → List Nat → List Nat → List Nat :=
  fun _ _ _ => List.replicate 16 10

/-- A concrete 32-byte key. -/
def keyc : List Nat := List.replicate 32 1

/-- A concrete 16-byte IV. -/
def ivc : List Nat := List.replicate 16 2

/-- Witness for C4 at concrete inputs: a plaintext with a non-ASCII
character (`ö`, U+00F6) and an astral code point (U+1F600) round-trips,
and so does the empty string. -/
theorem encrypt_decrypt_roundtrip_witness :
    decrypt prfc tagFc keyc (encrypt prfc tagFc keyc ivc [72, 246, 128512]) =
      .ok [72, 246, 128512]
    ∧ decrypt prfc tagFc keyc (encrypt prfc tagFc keyc ivc []) = .ok [] := by
  constructor <;>
    exact encrypt_decrypt_roundtrip prfc tagFc keyc ivc _ (by simp [ivc])
      (fun b hb => by simp [ivc, List.eq_of_mem_replicate hb])
      (fun k i c => by simp [tagFc])
      (fun k i c b hb => by simp [tagFc] at hb; omega)
      (fun k i n => by simp [prfc])
      (by decide)

/-- Claim C5 as amended (byte level): with the tag collaborator producing
16-byte tags, `decrypt` succeeds on a blob exactly when the blob's
hex-decoded bytes are an authentic `iv ‖ tag ‖ ciphertext` encoding under
the same key — any blob whose bytes fail the tag recomputation (a flipped
byte breaking the tag, a malformed length) yields `DecryptionFailed`, and
a successful decryption returns exactly the plaintext whose authentic
encryption the blob's bytes are, never an altered or partial one. -/
theorem decrypt_ok_iff_authentic (prf : List Nat → List Nat → Nat → Nat)
    (tagF : List Nat → List Nat → List Nat → List Nat) (key blob out : List Nat)
    (htaglen : ∀ k i c, (tagF k i c).length = 16) :
    decryptBytes prf tagF key blob = .ok out ↔
      ∃ iv ct, iv.length = 16 ∧ hexDecode blob = iv ++ tagF key iv ct ++ ct ∧
        out = xorBytes ct (keystream (prf key iv) ct.length) := by
  constructor
  · intro h
    unfold decryptBytes at h
    dsimp only at h
    by_cases hchk : tagF key ((hexDecode blob).take 16) ((hexDecode blob).drop 32) =
        ((hexDecode blob).drop 16).take 16
    · rw [if_pos hchk] at h
      injection h with h
      refine ⟨(hexDecode blob).take 16, (hexDecode blob).drop 32, ?_, ?_, h.symm⟩
      · have h16 := htaglen key ((hexDecode blob).take 16) ((hexDecode blob).drop 32)
        rw [hchk] at h16
        rw [List.length_take, List.length_drop] at h16
        rw [List.length_take]
        omega
      · rw [hchk, List.append_assoc]
        conv_lhs => rw [← List.take_append_drop 16 (hexDecode blob)]
        congr 1
        conv_lhs => rw [← List.take_append_drop 16 ((hexDecode blob).drop 16)]
        congr 1
        rw [List.drop_drop]
    · rw [if_neg hchk] at h
      exact Except.noConfusion h
  · rintro ⟨iv2, ct2, hiv2, hdec2, hout⟩
    obtain ⟨hs1, hs2, hs3⟩ :=
      split_blob iv2 (tagF key iv2 ct2) ct2 hiv2 (htaglen key iv2 ct2)
    unfold decryptBytes
    dsimp only
    rw [hdec2, hs1, hs2, hs3, if_pos rfl, hout]

/-- Witness for C5's amended theorem at concrete inputs: an authentic
one-byte-ciphertext blob decrypts to the XOR of that byte with the
keystream byte. -/
theorem decrypt_ok_iff_authentic_witness :
    decryptBytes prfc tagFc keyc
      (hexEncode (List.replicate 16 2 ++ List.replicate 16 10 ++ [9])) =
      .ok [14] :=
  (decrypt_ok_iff_authentic prfc tagFc keyc _ [14]
    (fun k i c => by simp [tagFc])).mpr
    ⟨List.replicate 16 2, [9], by simp, by decide, by decide⟩

/-- An uppercase re-encoding of an authentic blob: the bytes
`10, 10, ..., 10` (16 IV bytes and the 16 tag bytes of the empty
ciphertext) hex-encode to `"0a0a...0a"`; this blob spells every `'a'`
(code 97) as `'A'` (code 65) instead — a bit flip of each letter. -/
def upperBlob : List Nat := (List.replicate 32 ([48, 65] : List Nat)).flatten

/-- Claim C5 counterexample: `upperBlob` is not an output of `encrypt`
under any IV and plaintext (encryption emits only lowercase hex, never
`'A'`), yet `decrypt` does not fail on it: hex decoding is
case-insensitive, the tag verifies, and the empty plaintext is returned. -/
theorem decrypt_accepts_unauthentic_blob :
    (∀ iv pt, encryptBytes prfc tagFc keyc iv pt ≠ upperBlob)
    ∧ decryptBytes prfc tagFc keyc upperBlob = .ok [] := by
  constructor
  · intro iv pt h
    have h65 : (65 : Nat) ∈ upperBlob := by decide
    rw [← h] at h65
    unfold encryptBytes at h65
    dsimp only at h65
    obtain ⟨n, hn⟩ := mem_hexEncode _ _ h65
    unfold hexDigitCp at hn
    split_ifs at hn <;> omega
  · rfl

end FortnoxKit
